import Mathlib

/-! FIDO2 passthrough relay (`hw/usb/fido2-passthru.c`).

A shallow embedding of the relay between a character backend (a byte stream
delivered in chunks of arbitrary size) and the U2F key device (which exchanges
packets of `U2FHID_PACKET_SIZE` bytes), with the properties of the reassembly
loop `receive`, of the write path `fido2_passthru_recv_from_guest` and of the
lifecycle hooks.

Every C function is a Lean function from the device state to the new device
state together with the list of calls it makes into the rest of the emulator,
in the order they are made.
-/

namespace Fido2Passthru

/-! ## Data model -/

/-- Modelled from the spec: the packet size constant `U2FHID_PACKET_SIZE` is
defined in `u2f.h`, which is not among the sources; the spec fixes
`FRAME_SIZE = 64`. -/
abbrev U2FHID_PACKET_SIZE : Nat := 64

/-- A `uint8_t` holding data. -/
abbrev Byte := Fin 256

/-- The type `uint8_t [U2FHID_PACKET_SIZE]`: exactly 64 bytes. -/
abbrev Packet := { l : List Byte // l.length = U2FHID_PACKET_SIZE }

/-- The callbacks of this file that can be handed to the character backend. -/
inductive Callback where
  | can_receive
  | receive
  | chr_event
  deriving DecidableEq, Repr

/-- Modelled from the spec: `CharBackend` is declared in `chardev/char-fe.h`,
which is not among the sources. The model keeps what the relay uses of the
stream transport: whether a backend is attached (`is_connected`) and which
callbacks are registered with it (none registered is `none`). -/
structure CharBackend where
  connected : Bool
  chr_can_read : Option Callback
  chr_read : Option Callback
  chr_event : Option Callback
  chr_be_change : Option Callback
  deriving DecidableEq, Repr

/-- The device state `struct FIDO2PassthruState`: the host device `chr`, the
reassembly buffer `buf` and its fill level `bufsize` (a `uint8_t`). The parent
object `base` belongs to the U2F key device; the relay only passes it on to
`u2f_send_to_guest`, which appears here as a call in the trace. -/
structure FIDO2PassthruState where
  chr : CharBackend
  buf : Packet
  bufsize : Nat
  deriving DecidableEq

/-- Modelled from the spec: `QEMUChrEvent` is an enumeration declared in
`chardev/char.h`, which is not among the sources; the relay receives it as a
tag whose value it never inspects. -/
abbrev QEMUChrEvent := Int

/-- Calls the relay makes into the rest of the emulator. -/
inductive Event where
  /-- The call `u2f_send_to_guest(&key->base, packet)`, with the 64 bytes read. -/
  | u2f_send_to_guest (packet : List Byte)
  /-- The call `qemu_chr_fe_write(&key->chr, data, len)`. -/
  | qemu_chr_fe_write (data : List Byte) (len : Nat)
  /-- The call `error_report` of "Bad written size", with its two arguments. -/
  | error_report (req : Int) (val : Int)
  deriving DecidableEq

/-- Result of a call that may store outside `buf`: `none` is the out-of-bounds
store, otherwise the new state and the calls made. -/
abbrev Outcome := Option (FIDO2PassthruState × List Event)

/-- Sequencing of two steps: the second runs in the state the first leaves, and
the calls made are those of the first followed by those of the second. -/
def Outcome.andThen (r : Outcome) (f : FIDO2PassthruState → Outcome) : Outcome :=
  match r with
  | none => none
  | some (key1, ev1) =>
    match f key1 with
    | none => none
    | some (key2, ev2) => some (key2, ev1 ++ ev2)

/-! ## Operations -/

/-- Modelled from the spec: `qemu_chr_fe_backend_connected` is defined in the
character device layer, outside the sources; it is the transport's
`is_connected`. -/
def qemu_chr_fe_backend_connected (be : CharBackend) : Bool :=
  be.connected

/-- Modelled from the spec: `qemu_chr_fe_set_handlers` is defined in the
character device layer, outside the sources; it registers the given callbacks
with the transport. -/
def qemu_chr_fe_set_handlers (be : CharBackend)
    (fd_can_read fd_read fd_event be_change : Option Callback) : CharBackend :=
  { be with chr_can_read := fd_can_read, chr_read := fd_read,
            chr_event := fd_event, chr_be_change := be_change }

/-- The function `fido2_passthru_recv_from_guest`: one write of the packet to
the host device, then an error report when the count returned differs from the
packet size. `chr_write` is the character backend's answer to the write. -/
def fido2_passthru_recv_from_guest (chr_write : CharBackend → List Byte → Nat → Int)
    (key : FIDO2PassthruState) (packet : Packet) : FIDO2PassthruState × List Event :=
  let written : Int := chr_write key.chr packet.1 U2FHID_PACKET_SIZE
  let call := Event.qemu_chr_fe_write packet.1 U2FHID_PACKET_SIZE
  if written ≠ (U2FHID_PACKET_SIZE : Int) then
    (key, [call, Event.error_report (U2FHID_PACKET_SIZE : Int) written])
  else
    (key, [call])

/-- The function `fido2_passthru_reset`. -/
def fido2_passthru_reset (key : FIDO2PassthruState) : FIDO2PassthruState :=
  { key with bufsize := 0 }

/-- The function `fido2_passthru_unrealize`. -/
def fido2_passthru_unrealize (key : FIDO2PassthruState) : FIDO2PassthruState :=
  fido2_passthru_reset key

/-- The function `can_receive`. -/
def can_receive (_key : FIDO2PassthruState) : Int := 1

/-- The body of the loop of `receive` for one byte `b = buf[i]`: the store
`key->buf[key->bufsize] = b`, the increment of the `uint8_t` counter, and the
delivery of `key->buf` once the counter reaches the packet size. A store at an
index outside `buf` is `none`. -/
def receive_body (key : FIDO2PassthruState) (b : Byte) : Outcome :=
  if key.bufsize < U2FHID_PACKET_SIZE then
    let key1 : FIDO2PassthruState :=
      { key with buf := ⟨key.buf.1.set key.bufsize b, by simp [key.buf.2]⟩ }
    let key2 : FIDO2PassthruState := { key1 with bufsize := (key1.bufsize + 1) % 256 }
    if key2.bufsize ≥ U2FHID_PACKET_SIZE then
      some ({ key2 with bufsize := 0 }, [Event.u2f_send_to_guest key2.buf.1])
    else
      some (key2, [])
  else
    none

/-- The function `receive`: the chunk `(buf, size)` is the list of its `size`
bytes, visited in order by the loop. -/
def receive (key : FIDO2PassthruState) : List Byte → Outcome
  | [] => some (key, [])
  | b :: rest => (receive_body key b).andThen (fun key1 => receive key1 rest)

/-- The function `chr_event`: its body is empty. -/
def chr_event (key : FIDO2PassthruState) (_event : QEMUChrEvent) :
    FIDO2PassthruState × List Event :=
  (key, [])

/-- The function `fido2_passthru_realize`: the new state and the error set
through `errp`, if any. -/
def fido2_passthru_realize (key : FIDO2PassthruState) :
    FIDO2PassthruState × Option String :=
  if !qemu_chr_fe_backend_connected key.chr then
    (key, some "fido2-passthru device requires chardev attribute")
  else
    let key1 : FIDO2PassthruState :=
      { key with chr := qemu_chr_fe_set_handlers key.chr (some Callback.can_receive)
                          (some Callback.receive) (some Callback.chr_event) none }
    (fido2_passthru_reset key1, none)

/-- The function `fido2_passthru_post_load`: the new state and the value
returned. -/
def fido2_passthru_post_load (key : FIDO2PassthruState) (_version_id : Int) :
    FIDO2PassthruState × Int :=
  (fido2_passthru_reset key, 0)

/-- The character backend delivering a list of chunks: one call of `receive`
per chunk, in order. -/
def receive_chunks (key : FIDO2PassthruState) : List (List Byte) → Outcome
  | [] => some (key, [])
  | chunk :: rest => (receive key chunk).andThen (fun key1 => receive_chunks key1 rest)

/-! ## Vocabulary of the properties -/

/-- The bytes `[64*i, 64*i+64)` of a stream. -/
def frame_slice (stream : List Byte) (i : Nat) : List Byte :=
  (stream.drop (U2FHID_PACKET_SIZE * i)).take U2FHID_PACKET_SIZE

/-- The complete frames of a stream, in order. -/
def frames_of (stream : List Byte) : List (List Byte) :=
  (List.range (stream.length / U2FHID_PACKET_SIZE)).map (frame_slice stream)

/-- The bytes currently buffered: `buf[0 .. bufsize)`. -/
def buffered (key : FIDO2PassthruState) : List Byte :=
  key.buf.1.take key.bufsize

/-- Selects the writes to the host device in a trace. -/
def is_chr_write : Event → Bool
  | Event.qemu_chr_fe_write _ _ => true
  | _ => false

/-- Selects the error reports in a trace. -/
def is_error_report : Event → Bool
  | Event.error_report _ _ => true
  | _ => false

/-- Selects the deliveries to the guest in a trace. -/
def is_send_to_guest : Event → Bool
  | Event.u2f_send_to_guest _ => true
  | _ => false

/-! ## Examples of states and chunks -/

/-- A state with an all-zero buffer, nothing buffered, a connected backend and
no callback registered. -/
def key_zero : FIDO2PassthruState :=
  { chr := { connected := true, chr_can_read := none, chr_read := none,
             chr_event := none, chr_be_change := none },
    buf := ⟨List.replicate 64 0, by simp⟩,
    bufsize := 0 }

/-- A state in the middle of a frame: five bytes buffered, callbacks
registered. -/
def key_midframe : FIDO2PassthruState :=
  { chr := { connected := true, chr_can_read := some Callback.can_receive,
             chr_read := some Callback.receive, chr_event := some Callback.chr_event,
             chr_be_change := none },
    buf := ⟨List.replicate 64 7, by simp⟩,
    bufsize := 5 }

/-- A relay never started: no backend attached, no callback registered, and
a fill level left at 200. -/
def key_detached : FIDO2PassthruState :=
  { chr := { connected := false, chr_can_read := none, chr_read := none,
             chr_event := none, chr_be_change := none },
    buf := ⟨List.replicate 64 9, by simp⟩,
    bufsize := 200 }

/-- The state after a successful realize of `key_zero`: a started relay. -/
def key_started : FIDO2PassthruState :=
  (fido2_passthru_realize key_zero).1

/-- The bytes `n, n+1, ..., n+m-1` (modulo 256). -/
def count_from (n m : Nat) : List Byte :=
  (List.range' n m).map (fun i => Fin.ofNat i)

/-! ## Sequencing and the chunk structure -/

theorem andThen_pure_left (key : FIDO2PassthruState) (f : FIDO2PassthruState → Outcome) :
    Outcome.andThen (some (key, [])) f = f key := by
  cases h : f key <;> simp [Outcome.andThen, h]

theorem andThen_assoc (r : Outcome) (f g : FIDO2PassthruState → Outcome) :
    (r.andThen f).andThen g = r.andThen (fun k => (f k).andThen g) := by
  cases r with
  | none => rfl
  | some r1 =>
    obtain ⟨k1, e1⟩ := r1
    simp only [Outcome.andThen]
    cases h1 : f k1 with
    | none => rfl
    | some r2 =>
      obtain ⟨k2, e2⟩ := r2
      simp only []
      cases h2 : g k2 with
      | none => rfl
      | some r3 => obtain ⟨k3, e3⟩ := r3; simp [List.append_assoc]

theorem receive_append (a b : List Byte) (key : FIDO2PassthruState) :
    receive key (a ++ b) = (receive key a).andThen (fun k => receive k b) := by
  induction a generalizing key with
  | nil => simp [receive, andThen_pure_left]
  | cons x rest ih =>
    simp only [List.cons_append, receive, andThen_assoc]
    congr 1
    funext k
    exact ih k

theorem receive_chunks_flatten (chunks : List (List Byte)) (key : FIDO2PassthruState) :
    receive_chunks key chunks = receive key chunks.flatten := by
  induction chunks generalizing key with
  | nil => simp [receive_chunks, receive]
  | cons c rest ih =>
    simp only [receive_chunks, List.flatten_cons, receive_append]
    congr 1
    funext k
    exact ih k

/-! ## Slices of a stream -/

theorem take_set_succ (l : List Byte) (n : Nat) (b : Byte) (h : n < l.length) :
    (l.set n b).take (n + 1) = l.take n ++ [b] := by
  induction l generalizing n with
  | nil => simp at h
  | cons x xs ih =>
    cases n with
    | zero => simp
    | succ m =>
      simp only [List.length_cons, Nat.add_lt_add_iff_right] at h
      simp [ih m h]

theorem frames_of_short (stream : List Byte) (h : stream.length < U2FHID_PACKET_SIZE) :
    frames_of stream = [] := by
  simp [frames_of, Nat.div_eq_of_lt h]

theorem frames_of_long (stream : List Byte) (h : U2FHID_PACKET_SIZE ≤ stream.length) :
    frames_of stream
      = stream.take U2FHID_PACKET_SIZE :: frames_of (stream.drop U2FHID_PACKET_SIZE) := by
  have hdiv : stream.length / 64 = (stream.length - 64) / 64 + 1 := by
    simp only [U2FHID_PACKET_SIZE] at h
    omega
  simp only [frames_of, List.length_drop, U2FHID_PACKET_SIZE, hdiv, List.range_succ_eq_map,
    List.map_cons, List.map_map]
  refine congrArg₂ _ ?_ ?_
  · simp [frame_slice]
  · apply List.map_congr_left
    intro i _
    simp only [Function.comp, frame_slice, List.drop_drop, U2FHID_PACKET_SIZE]
    congr 2
    simp only [Nat.succ_eq_add_one]
    omega

theorem buffered_length (key : FIDO2PassthruState) (h : key.bufsize < U2FHID_PACKET_SIZE) :
    (buffered key).length = key.bufsize := by
  have := key.buf.2
  simp only [buffered, List.length_take]
  omega

/-! ## The reassembly loop -/

/-- One iteration of the loop from a state that is not full: either the byte is
appended to the buffered bytes and nothing is delivered, or the byte completes
the packet, which is delivered, and the buffer becomes empty. -/
theorem receive_body_spec (key : FIDO2PassthruState) (b : Byte)
    (h : key.bufsize < U2FHID_PACKET_SIZE) :
    ∃ key1 ev, receive_body key b = some (key1, ev) ∧ key1.chr = key.chr ∧
      ((key.bufsize + 1 < U2FHID_PACKET_SIZE ∧ ev = [] ∧ key1.bufsize = key.bufsize + 1 ∧
          buffered key1 = buffered key ++ [b]) ∨
       (key.bufsize + 1 = U2FHID_PACKET_SIZE ∧
          ev = [Event.u2f_send_to_guest (buffered key ++ [b])] ∧ key1.bufsize = 0)) := by
  have hlen := key.buf.2
  simp only [U2FHID_PACKET_SIZE] at h hlen
  have hmod : (key.bufsize + 1) % 256 = key.bufsize + 1 := Nat.mod_eq_of_lt (by omega)
  by_cases hfull : key.bufsize + 1 < 64
  · refine ⟨{ key with buf := ⟨key.buf.1.set key.bufsize b, by simp [key.buf.2]⟩,
                        bufsize := key.bufsize + 1 }, [], ?_, rfl, Or.inl ⟨hfull, rfl, rfl, ?_⟩⟩
    · simp only [receive_body, U2FHID_PACKET_SIZE, h, if_true, hmod]
      rw [if_neg (by omega)]
    · simp only [buffered]
      exact take_set_succ _ _ _ (by omega)
  · have h63 : key.bufsize + 1 = 64 := by omega
    have hs : (key.buf.1.set key.bufsize b).take (key.bufsize + 1)
        = key.buf.1.take key.bufsize ++ [b] := take_set_succ _ _ _ (by omega)
    rw [List.take_of_length_le (by simp [hlen, h63])] at hs
    refine ⟨{ key with buf := ⟨key.buf.1.set key.bufsize b, by simp [key.buf.2]⟩,
                        bufsize := 0 }, _, ?_, rfl, Or.inr ⟨h63, rfl, rfl⟩⟩
    simp only [receive_body, U2FHID_PACKET_SIZE, h, if_true, hmod]
    rw [if_pos (by omega)]
    simp only [buffered, hs]

/-- The loop of `receive` from a state that is not full: it returns, the calls
it makes are the deliveries of the complete frames of the buffered bytes
followed by the chunk, and what stays buffered is the remainder of that
stream. -/
theorem receive_spec (chunk : List Byte) (key : FIDO2PassthruState)
    (h : key.bufsize < U2FHID_PACKET_SIZE) :
    ∃ key1, receive key chunk
        = some (key1, (frames_of (buffered key ++ chunk)).map Event.u2f_send_to_guest) ∧
      key1.chr = key.chr ∧
      key1.bufsize = (key.bufsize + chunk.length) % U2FHID_PACKET_SIZE ∧
      buffered key1 = (buffered key ++ chunk).drop
        (U2FHID_PACKET_SIZE * ((key.bufsize + chunk.length) / U2FHID_PACKET_SIZE)) := by
  induction chunk generalizing key with
  | nil =>
    have hb := buffered_length key h
    refine ⟨key, ?_, rfl, ?_, ?_⟩
    · simp [receive, frames_of_short _ (hb ▸ h)]
    · simp [Nat.mod_eq_of_lt h]
    · simp [Nat.div_eq_of_lt h]
  | cons b rest ih =>
    have hb := buffered_length key h
    obtain ⟨k1, ev, hstep, hchr, hcase⟩ := receive_body_spec key b h
    rcases hcase with ⟨hlt, hev, hsize, hbuf⟩ | ⟨hfull, hev, hsize⟩
    · obtain ⟨k2, hrun, hchr2, hsize2, hbuf2⟩ := ih k1 (by omega)
      refine ⟨k2, ?_, hchr2.trans hchr, ?_, ?_⟩
      · simp [receive, hstep, Outcome.andThen, hrun, hev, hbuf]
      · rw [hsize2, hsize]; simp only [List.length_cons]; congr 1; omega
      · rw [hbuf2, hsize, hbuf]
        simp only [List.length_cons, List.append_assoc, List.singleton_append]
        congr 3; omega
    · have h0 : k1.bufsize < U2FHID_PACKET_SIZE := by rw [hsize]; decide
      obtain ⟨k2, hrun, hchr2, hsize2, hbuf2⟩ := ih k1 h0
      have hb1 : buffered k1 = [] := by simp [buffered, hsize]
      have hlen : (buffered key ++ [b]).length = U2FHID_PACKET_SIZE := by
        simp [hb, hfull]
      have hframes : frames_of (buffered key ++ b :: rest)
          = (buffered key ++ [b]) :: frames_of rest := by
        have hsplit : buffered key ++ b :: rest = (buffered key ++ [b]) ++ rest := by simp
        rw [hsplit, frames_of_long _ (by simp [hb]; omega)]
        rw [List.take_left' hlen, List.drop_left' hlen]
      refine ⟨k2, ?_, hchr2.trans hchr, ?_, ?_⟩
      · simp [receive, hstep, Outcome.andThen, hrun, hev, hb1, hframes]
      · rw [hsize2, hsize]
        simp only [List.length_cons, U2FHID_PACKET_SIZE] at hfull ⊢
        omega
      · rw [hbuf2, hsize, hb1]
        have hsplit : buffered key ++ b :: rest = (buffered key ++ [b]) ++ rest := by simp
        have hq : U2FHID_PACKET_SIZE * ((key.bufsize + (b :: rest).length) / U2FHID_PACKET_SIZE)
            = U2FHID_PACKET_SIZE + U2FHID_PACKET_SIZE * ((0 + rest.length) / U2FHID_PACKET_SIZE) := by
          simp only [List.length_cons, U2FHID_PACKET_SIZE] at hfull ⊢
          omega
        rw [hq, hsplit, ← List.drop_drop, List.drop_left' hlen]
        simp

/-- The chunk list seen from an empty buffer: `receive_chunks` returns, it makes
exactly the deliveries of the complete frames of the concatenated chunks, and
what stays buffered is the remainder of the concatenation. -/
theorem receive_chunks_fresh (chunks : List (List Byte)) (key : FIDO2PassthruState)
    (h0 : key.bufsize = 0) :
    ∃ key1, receive_chunks key chunks
        = some (key1, (frames_of chunks.flatten).map Event.u2f_send_to_guest) ∧
      key1.chr = key.chr ∧
      key1.bufsize = chunks.flatten.length % U2FHID_PACKET_SIZE ∧
      buffered key1 = chunks.flatten.drop
        (U2FHID_PACKET_SIZE * (chunks.flatten.length / U2FHID_PACKET_SIZE)) := by
  have hlt : key.bufsize < U2FHID_PACKET_SIZE := by rw [h0]; decide
  have hb : buffered key = [] := by simp [buffered, h0]
  obtain ⟨k1, hrun, hchr, hsize, hbuf⟩ := receive_spec chunks.flatten key hlt
  rw [hb, h0] at *
  simp only [List.nil_append, Nat.zero_add] at hrun hsize hbuf
  exact ⟨k1, by rw [receive_chunks_flatten, hrun], hchr, hsize, hbuf⟩

/-! ## Properties of the reassembly -/

/-- C1: for every list of chunks fed in order through `receive` to a state whose
`bufsize` is 0, if the chunks hold `k * 64` bytes in total then the calls made
are exactly `k` calls of `u2f_send_to_guest`, the `i`-th with the bytes
`[64*i, 64*i+64)` of the concatenation of the chunks. -/
theorem receive_chunks_delivers_frames (key : FIDO2PassthruState)
    (chunks : List (List Byte)) (k : Nat) (h0 : key.bufsize = 0)
    (hk : (chunks.map List.length).sum = k * U2FHID_PACKET_SIZE) :
    (receive_chunks key chunks).map Prod.snd
      = some ((List.range k).map
          (fun i => Event.u2f_send_to_guest (frame_slice chunks.flatten i))) := by
  obtain ⟨k1, hrun, -, -, -⟩ := receive_chunks_fresh chunks key h0
  rw [hrun]
  simp [frames_of, List.length_flatten, hk]

/-- C1 at a concrete input: two chunks of 32 bytes into an empty buffer. -/
theorem receive_chunks_delivers_frames_witness :
    key_zero.bufsize = 0 ∧
    (receive_chunks key_zero [count_from 0 32, count_from 32 32]).map Prod.snd
      = some ((List.range 1).map (fun i => Event.u2f_send_to_guest
          (frame_slice [count_from 0 32, count_from 32 32].flatten i))) :=
  ⟨rfl, receive_chunks_delivers_frames key_zero [count_from 0 32, count_from 32 32] 1 rfl
    (by decide)⟩

/-- C2: reassembly does not depend on chunk boundaries. From every state with
`bufsize < 64`, two chunk lists with the same concatenation, fed chunk by chunk
through `receive`, both return and give the same outcome: the same calls of
`u2f_send_to_guest` in the same order and the same final state (`bufsize`,
`buf`). In particular `receive` of `a ++ b` is `receive` of `a` followed by
`receive` of `b`, and an empty chunk leaves the state as it is and makes no
call. -/
theorem receive_chunk_boundary_independent (key : FIDO2PassthruState)
    (chunks1 chunks2 : List (List Byte)) (a b : List Byte)
    (h : key.bufsize < U2FHID_PACKET_SIZE) (hcat : chunks1.flatten = chunks2.flatten) :
    receive_chunks key chunks1 = receive_chunks key chunks2 ∧
    (receive_chunks key chunks1).isSome = true ∧
    (receive_chunks key chunks1).map (fun r => (r.2, r.1.bufsize, buffered r.1))
      = (receive_chunks key chunks2).map (fun r => (r.2, r.1.bufsize, buffered r.1)) ∧
    receive key (a ++ b) = (receive key a).andThen (fun key1 => receive key1 b) ∧
    receive key (a ++ b) = receive_chunks key [a, b] ∧
    receive key [] = some (key, []) := by
  have heq : receive_chunks key chunks1 = receive_chunks key chunks2 := by
    rw [receive_chunks_flatten, receive_chunks_flatten, hcat]
  obtain ⟨k1, hrun, -⟩ := receive_spec chunks1.flatten key h
  refine ⟨heq, ?_, by rw [heq], receive_append a b key, ?_, rfl⟩
  · rw [receive_chunks_flatten, hrun]; rfl
  · rw [receive_chunks_flatten]; simp

/-- C2 at a concrete input: three bytes buffered after five, as one chunk, as
two chunks and with an empty chunk in between. -/
theorem receive_chunk_boundary_independent_witness :
    key_midframe.bufsize < U2FHID_PACKET_SIZE ∧
    [count_from 0 3].flatten = [count_from 0 1, [], count_from 1 2].flatten ∧
    receive_chunks key_midframe [count_from 0 3]
      = receive_chunks key_midframe [count_from 0 1, [], count_from 1 2] :=
  ⟨by decide, by decide,
    (receive_chunk_boundary_independent key_midframe [count_from 0 3]
      [count_from 0 1, [], count_from 1 2] [] [] (by decide) (by decide)).1⟩

/-- C3: for every list of chunks with `n` bytes in total fed to a state whose
`bufsize` is 0, `receive` makes exactly `n / 64` calls, all of them deliveries
to the guest, leaves `bufsize = n % 64`, and `buf[0 .. n % 64)` holds the last
`n % 64` bytes of the stream. With the chunks `b 0 .. b 31` and `b 32 .. b 66`
exactly the frame `b 0 .. b 63` is delivered and `bufsize` is 3 with
`b 64 .. b 66` buffered; 61 more bytes deliver the frame `b 64 .. b 127` and
`bufsize` is 0 again. -/
theorem receive_chunks_count_and_remainder (key : FIDO2PassthruState)
    (chunks : List (List Byte)) (b : Nat → Byte) (h0 : key.bufsize = 0) :
    (∃ key1 ev, receive_chunks key chunks = some (key1, ev) ∧
      ev.length = chunks.flatten.length / U2FHID_PACKET_SIZE ∧
      (∀ e ∈ ev, is_send_to_guest e = true) ∧
      key1.bufsize = chunks.flatten.length % U2FHID_PACKET_SIZE ∧
      key1.buf.1.take (chunks.flatten.length % U2FHID_PACKET_SIZE)
        = chunks.flatten.drop
            (chunks.flatten.length - chunks.flatten.length % U2FHID_PACKET_SIZE)) ∧
    (∃ key1 key2,
      receive_chunks key [(List.range 32).map b, (List.range' 32 35).map b]
        = some (key1, [Event.u2f_send_to_guest ((List.range 64).map b)]) ∧
      key1.bufsize = 3 ∧
      key1.buf.1.take 3 = [b 64, b 65, b 66] ∧
      receive key1 ((List.range' 67 61).map b)
        = some (key2, [Event.u2f_send_to_guest ((List.range' 64 64).map b)]) ∧
      key2.bufsize = 0) := by
  constructor
  · obtain ⟨k1, hrun, -, hsize, hbuf⟩ := receive_chunks_fresh chunks key h0
    refine ⟨k1, _, hrun, by simp [frames_of], ?_, hsize, ?_⟩
    · intro e he
      obtain ⟨f, -, rfl⟩ := List.mem_map.mp he
      rfl
    · have hq : chunks.flatten.length - chunks.flatten.length % U2FHID_PACKET_SIZE
          = U2FHID_PACKET_SIZE * (chunks.flatten.length / U2FHID_PACKET_SIZE) := by
        simp only [U2FHID_PACKET_SIZE]; omega
      rw [hq, ← hbuf, buffered, hsize]
  · obtain ⟨k1, hrun, -, hsize, hbuf⟩ :=
      receive_chunks_fresh [(List.range 32).map b, (List.range' 32 35).map b] key h0
    have hstream : [(List.range 32).map b, (List.range' 32 35).map b].flatten
        = (List.range' 0 67).map b := by
      simp only [List.flatten_cons, List.flatten_nil, List.append_nil, ← List.map_append]
      rfl
    have hnext : [b 64, b 65, b 66] ++ (List.range' 67 61).map b
        = (List.range' 64 64).map b := rfl
    have hframe1 : frames_of ((List.range' 0 67).map b) = [(List.range 64).map b] := by
      simp only [frames_of, List.length_map, List.length_range']
      rfl
    have hframe2 : frames_of ((List.range' 64 64).map b) = [(List.range' 64 64).map b] := by
      simp only [frames_of, List.length_map, List.length_range']
      rfl
    rw [hstream] at hrun hsize hbuf
    simp only [List.length_map, List.length_range'] at hsize hbuf
    have hsize3 : k1.bufsize = 3 := hsize
    have hbuf3 : buffered k1 = [b 64, b 65, b 66] := hbuf
    obtain ⟨k2, hrun2, -, hsize2, -⟩ :=
      receive_spec ((List.range' 67 61).map b) k1 (by rw [hsize3]; decide)
    rw [hbuf3, hnext, hframe2] at hrun2
    rw [hframe1] at hrun
    simp only [List.length_map, List.length_range', hsize3] at hsize2
    refine ⟨k1, k2, hrun, hsize3, ?_, hrun2, hsize2⟩
    rw [← hbuf3, buffered, hsize3]

/-- C3 at a concrete input: 32 then 35 bytes into an empty buffer. -/
theorem receive_chunks_count_and_remainder_witness :
    key_zero.bufsize = 0 ∧
    ∃ key1 ev, receive_chunks key_zero [count_from 0 32, count_from 32 35] = some (key1, ev) ∧
      ev.length = 1 ∧ (∀ e ∈ ev, is_send_to_guest e = true) ∧ key1.bufsize = 3 ∧
      key1.buf.1.take 3 = count_from 64 3 :=
  ⟨rfl, (receive_chunks_count_and_remainder key_zero [count_from 0 32, count_from 32 35]
    (fun i => Fin.ofNat i) rfl).1⟩

/-- C4: after `fido2_passthru_reset` (or `fido2_passthru_post_load`, which
resets and returns 0), whatever the prior `bufsize` and buffer contents:
chunks totalling fewer than 64 bytes make no call, and for any chunk list the
calls made are those a state with `bufsize` 0 and any other buffer contents
makes on the same chunks, namely the deliveries of the complete frames of the
concatenated chunks; no byte buffered before the reset is delivered. -/
theorem reset_discards_buffered_bytes (key other : FIDO2PassthruState) (version_id : Int)
    (small chunks : List (List Byte)) (hother : other.bufsize = 0)
    (hsmall : (small.map List.length).sum < U2FHID_PACKET_SIZE) :
    fido2_passthru_post_load key version_id = (fido2_passthru_reset key, 0) ∧
    (receive_chunks (fido2_passthru_reset key) small).map Prod.snd = some [] ∧
    (receive_chunks (fido2_passthru_reset key) chunks).map Prod.snd
      = (receive_chunks other chunks).map Prod.snd ∧
    (receive_chunks (fido2_passthru_reset key) chunks).map Prod.snd
      = some ((frames_of chunks.flatten).map Event.u2f_send_to_guest) := by
  obtain ⟨k1, hrun1, -⟩ := receive_chunks_fresh small (fido2_passthru_reset key) rfl
  obtain ⟨k2, hrun2, -⟩ := receive_chunks_fresh chunks (fido2_passthru_reset key) rfl
  obtain ⟨k3, hrun3, -⟩ := receive_chunks_fresh chunks other hother
  refine ⟨rfl, ?_, by rw [hrun2, hrun3]; rfl, by rw [hrun2]; rfl⟩
  rw [hrun1, frames_of_short _ (by rw [List.length_flatten]; exact hsmall)]
  rfl

/-- C4 at a concrete input: a state with five bytes buffered is reset, then
receives ten bytes, or seventy. -/
theorem reset_discards_buffered_bytes_witness :
    key_zero.bufsize = 0 ∧
    ([count_from 0 4, count_from 4 6].map List.length).sum < U2FHID_PACKET_SIZE ∧
    (receive_chunks (fido2_passthru_reset key_midframe)
        [count_from 0 4, count_from 4 6]).map Prod.snd = some [] ∧
    (receive_chunks (fido2_passthru_reset key_midframe) [count_from 0 70]).map Prod.snd
      = (receive_chunks key_zero [count_from 0 70]).map Prod.snd :=
  ⟨rfl, by decide,
    (reset_discards_buffered_bytes key_midframe key_zero 1 [count_from 0 4, count_from 4 6]
      [count_from 0 70] rfl (by decide)).2.1,
    (reset_discards_buffered_bytes key_midframe key_zero 1 [count_from 0 4, count_from 4 6]
      [count_from 0 70] rfl (by decide)).2.2.1⟩

/-! ## Properties of the lifecycle hooks and of the write path -/

/-- The write path returns the state it was called in. -/
theorem recv_from_guest_state (chr_write : CharBackend → List Byte → Nat → Int)
    (key : FIDO2PassthruState) (packet : Packet) :
    (fido2_passthru_recv_from_guest chr_write key packet).1 = key := by
  by_cases hw : chr_write key.chr packet.1 U2FHID_PACKET_SIZE = 64 <;>
    simp [fido2_passthru_recv_from_guest, hw]

/-- C5: `fido2_passthru_realize` sets an error if and only if the backend is
not connected at the time of the call. Either it fails and the state is the
one it was called in (no callback registered, reassembly state untouched), or
it succeeds and `receive`, `chr_event` and `can_receive` are the registered
callbacks and `bufsize` is 0. -/
theorem realize_fails_iff_not_connected (key : FIDO2PassthruState) :
    ((fido2_passthru_realize key).2.isSome = true
      ↔ qemu_chr_fe_backend_connected key.chr = false) ∧
    (((fido2_passthru_realize key).2.isSome = true ∧
        (fido2_passthru_realize key).1 = key) ∨
     ((fido2_passthru_realize key).2 = none ∧
        (fido2_passthru_realize key).1.chr.chr_read = some Callback.receive ∧
        (fido2_passthru_realize key).1.chr.chr_event = some Callback.chr_event ∧
        (fido2_passthru_realize key).1.chr.chr_can_read = some Callback.can_receive ∧
        (fido2_passthru_realize key).1.bufsize = 0)) := by
  cases hc : qemu_chr_fe_backend_connected key.chr
  · refine ⟨by simp [fido2_passthru_realize, hc], Or.inl ?_⟩
    simp [fido2_passthru_realize, hc]
  · refine ⟨by simp [fido2_passthru_realize, hc], Or.inr ?_⟩
    simp [fido2_passthru_realize, hc, fido2_passthru_reset, qemu_chr_fe_set_handlers]

/-- C6: for every packet and every state, `fido2_passthru_recv_from_guest`
reports no error when the write returns 64 and exactly one error, carrying the
count returned, when the write returns less than 64; whatever the write
returns, the state (`bufsize`, `buf`) is the one it was called in. -/
theorem recv_from_guest_reports_short_write
    (chr_full chr_short chr_any : CharBackend → List Byte → Nat → Int)
    (key : FIDO2PassthruState) (packet : Packet)
    (hfull : chr_full key.chr packet.1 U2FHID_PACKET_SIZE = 64)
    (hshort : chr_short key.chr packet.1 U2FHID_PACKET_SIZE < 64) :
    (fido2_passthru_recv_from_guest chr_full key packet).2.filter is_error_report = [] ∧
    (fido2_passthru_recv_from_guest chr_short key packet).2.filter is_error_report
      = [Event.error_report 64 (chr_short key.chr packet.1 U2FHID_PACKET_SIZE)] ∧
    (fido2_passthru_recv_from_guest chr_any key packet).1 = key := by
  have hne : chr_short key.chr packet.1 U2FHID_PACKET_SIZE ≠ 64 := by omega
  refine ⟨?_, ?_, ?_⟩
  · simp [fido2_passthru_recv_from_guest, hfull, is_error_report]
  · simp [fido2_passthru_recv_from_guest, hne, is_error_report]
  · exact recv_from_guest_state chr_any key packet

/-- C6 at a concrete input: a backend that writes everything and one that
writes ten bytes. -/
theorem recv_from_guest_reports_short_write_witness :
    (fido2_passthru_recv_from_guest (fun _ _ len => len) key_midframe key_zero.buf).2.filter
        is_error_report = [] ∧
    (fido2_passthru_recv_from_guest (fun _ _ _ => 10) key_midframe key_zero.buf).2.filter
        is_error_report = [Event.error_report 64 10] ∧
    (fido2_passthru_recv_from_guest (fun _ _ _ => -1) key_midframe key_zero.buf).1
      = key_midframe :=
  recv_from_guest_reports_short_write (fun _ _ len => len) (fun _ _ _ => 10)
    (fun _ _ _ => -1) key_midframe key_zero.buf (by decide) (by decide)

/-- C7: `bufsize < 64` is an invariant. From every state `prior`, whatever
its `bufsize` and whether or not a backend is attached, it holds after reset,
unrealize and post_load, and after realize when realize succeeds; `receive`,
`fido2_passthru_recv_from_guest` and `chr_event` started with `bufsize < 64`
end with `bufsize < 64`; and `receive` returns for a chunk of any length, the
state before each of its stores having `bufsize < 64`, so that no store falls
outside `buf`. -/
theorem bufsize_lt_packet_size (key prior : FIDO2PassthruState) (version_id : Int)
    (chunk : List Byte) (packet : Packet)
    (chr_write : CharBackend → List Byte → Nat → Int) (event : QEMUChrEvent)
    (hinv : key.bufsize < U2FHID_PACKET_SIZE) :
    (fido2_passthru_reset prior).bufsize < U2FHID_PACKET_SIZE ∧
    (fido2_passthru_unrealize prior).bufsize < U2FHID_PACKET_SIZE ∧
    (fido2_passthru_post_load prior version_id).1.bufsize < U2FHID_PACKET_SIZE ∧
    ((fido2_passthru_realize prior).2 = none →
      (fido2_passthru_realize prior).1.bufsize < U2FHID_PACKET_SIZE) ∧
    (∃ key1 ev, receive key chunk = some (key1, ev) ∧ key1.bufsize < U2FHID_PACKET_SIZE) ∧
    (∀ done rest, chunk = done ++ rest →
      ∃ key1 ev, receive key done = some (key1, ev) ∧ key1.bufsize < U2FHID_PACKET_SIZE) ∧
    (fido2_passthru_recv_from_guest chr_write key packet).1.bufsize < U2FHID_PACKET_SIZE ∧
    (chr_event key event).1.bufsize < U2FHID_PACKET_SIZE := by
  have hrecv : ∀ bytes : List Byte,
      ∃ key1 ev, receive key bytes = some (key1, ev) ∧ key1.bufsize < U2FHID_PACKET_SIZE := by
    intro bytes
    obtain ⟨k1, hrun, -, hsize, -⟩ := receive_spec bytes key hinv
    exact ⟨k1, _, hrun, by rw [hsize]; exact Nat.mod_lt _ (by decide)⟩
  have hwrite := recv_from_guest_state chr_write key packet
  have hzero : (0 : Nat) < U2FHID_PACKET_SIZE := by decide
  refine ⟨hzero, hzero, hzero, ?_, hrecv chunk, fun done _ _ => hrecv done,
    by rw [hwrite]; exact hinv, hinv⟩
  intro hok
  cases hc : qemu_chr_fe_backend_connected prior.chr
  · simp [fido2_passthru_realize, hc] at hok
  · simp [fido2_passthru_realize, hc, fido2_passthru_reset]

/-- C7 at concrete inputs: a relay never started, with fill level 200 and no
backend, is reset, unrealized and restored; a connected state is realized; a
state with five bytes buffered receives seventy bytes. -/
theorem bufsize_lt_packet_size_witness :
    key_midframe.bufsize < U2FHID_PACKET_SIZE ∧
    (fido2_passthru_realize key_detached).2 ≠ none ∧
    (fido2_passthru_reset key_detached).bufsize < U2FHID_PACKET_SIZE ∧
    (fido2_passthru_unrealize key_detached).bufsize < U2FHID_PACKET_SIZE ∧
    (fido2_passthru_post_load key_detached 1).1.bufsize < U2FHID_PACKET_SIZE ∧
    (fido2_passthru_realize key_zero).2 = none ∧
    (fido2_passthru_realize key_zero).1.bufsize < U2FHID_PACKET_SIZE ∧
    ∃ key1 ev, receive key_midframe (count_from 0 70) = some (key1, ev) ∧
      key1.bufsize < U2FHID_PACKET_SIZE :=
  ⟨by decide, by decide,
    (bufsize_lt_packet_size key_midframe key_detached 1 (count_from 0 70) key_zero.buf
      (fun _ _ len => len) 0 (by decide)).1,
    (bufsize_lt_packet_size key_midframe key_detached 1 (count_from 0 70) key_zero.buf
      (fun _ _ len => len) 0 (by decide)).2.1,
    (bufsize_lt_packet_size key_midframe key_detached 1 (count_from 0 70) key_zero.buf
      (fun _ _ len => len) 0 (by decide)).2.2.1,
    rfl,
    (bufsize_lt_packet_size key_midframe key_zero 1 (count_from 0 70) key_zero.buf
      (fun _ _ len => len) 0 (by decide)).2.2.2.1 rfl,
    (bufsize_lt_packet_size key_midframe key_zero 1 (count_from 0 70) key_zero.buf
      (fun _ _ len => len) 0 (by decide)).2.2.2.2.1⟩

/-- C8, as stated, fails: in a started relay `fido2_passthru_unrealize` leaves
`receive` and `chr_event` registered with the backend. -/
theorem unrealize_keeps_handlers_registered :
    key_started.chr.chr_read = some Callback.receive ∧
    (fido2_passthru_unrealize key_started).chr.chr_read = some Callback.receive ∧
    (fido2_passthru_unrealize key_started).chr.chr_event = some Callback.chr_event ∧
    ¬ ((fido2_passthru_unrealize key_started).chr.chr_read = none) := by
  decide

/-- C8, amended: from every state, started or not, `fido2_passthru_unrealize`
sets `bufsize` to 0 and leaves the backend, with the callbacks registered in
it, and the buffer contents as they were; it is idempotent. -/
theorem unrealize_resets_and_is_idempotent (key : FIDO2PassthruState) :
    (fido2_passthru_unrealize key).bufsize = 0 ∧
    (fido2_passthru_unrealize key).chr = key.chr ∧
    (fido2_passthru_unrealize key).buf = key.buf ∧
    fido2_passthru_unrealize (fido2_passthru_unrealize key) = fido2_passthru_unrealize key ∧
    fido2_passthru_reset (fido2_passthru_reset key) = fido2_passthru_reset key :=
  ⟨rfl, rfl, rfl, rfl, rfl⟩

/-- C9: for every packet, `fido2_passthru_recv_from_guest` makes exactly one
call of `qemu_chr_fe_write`, first of its calls, with the 64 bytes of the
packet in order and the length 64, whatever count the write returns; nothing
is written again and nothing of the packet is kept in the state. -/
theorem recv_from_guest_writes_once (chr_write : CharBackend → List Byte → Nat → Int)
    (key : FIDO2PassthruState) (packet : Packet) :
    (fido2_passthru_recv_from_guest chr_write key packet).2.filter is_chr_write
      = [Event.qemu_chr_fe_write packet.1 64] ∧
    (fido2_passthru_recv_from_guest chr_write key packet).2.head?
      = some (Event.qemu_chr_fe_write packet.1 64) ∧
    packet.1.length = 64 ∧
    (fido2_passthru_recv_from_guest chr_write key packet).1 = key := by
  refine ⟨?_, ?_, packet.2, recv_from_guest_state chr_write key packet⟩ <;>
  · by_cases hw : chr_write key.chr packet.1 U2FHID_PACKET_SIZE = 64 <;>
      simp [fido2_passthru_recv_from_guest, hw, is_chr_write]

/-- C10: `chr_event` does nothing: for every event and every state it returns
the state it was called in (`bufsize`, `buf`, registered callbacks) and makes
no call, neither a delivery to the guest nor a write to the backend; the bytes
buffered in the middle of a frame stay buffered. -/
theorem chr_event_is_noop (key : FIDO2PassthruState) (event : QEMUChrEvent) :
    chr_event key event = (key, []) ∧
    (chr_event key event).1.bufsize = key.bufsize ∧
    (chr_event key event).1.buf = key.buf ∧
    (chr_event key event).1.chr = key.chr ∧
    buffered (chr_event key event).1 = buffered key ∧
    (chr_event key event).2 = [] :=
  ⟨rfl, rfl, rfl, rfl, rfl, rfl⟩

end Fido2Passthru
